import Mathlib

/-!
Verification of the RISC-V formal-interface bus composer, retirement slicer
and tracer adapter (`rvfi.py`) against its natural-language specification.

The Python classes are shallowly embedded:

* `Params` collects the constructor arguments of `RiscvFormalInterface`
  (the spec's BusParameters).
* `interfaceSignals` is the `interface` dictionary built by
  `RiscvFormalInterface.__init__`, one definition per `if`-block of the
  source, as an ordered list of (name, width) pairs.
* `mkBus` is the constructor: the three `assert` statements become an
  `Option`-returning guard (`none` models the fatal construction error).
* `sliceNret` is `RiscvFormalInterface.slice_nret`: it returns the parent
  with the emitted combinational assignments appended to its `comb` list,
  together with the list of single-retirement slices.  A combinational
  assignment records the target lane, the target signal name and the
  source expression (whole parent signal, or a bit range of it).
* `mkIbexTracer` is `IbexTracer.__init__`: the `nret == 1` assertion and
  the attribute lookups become an `Option` guard, and the `Instance`
  keyword arguments become the fields of the `IbexTracer` structure.

Signal values are modelled as natural numbers; a bit range `[lo, hi)` of a
value `v` is `v / 2 ^ lo % 2 ^ (hi - lo)`, so lane 0 sits at the least
significant bits exactly as migen's `signal[lo:hi]` slicing does.
-/

/-- The constructor parameters of `RiscvFormalInterface` (the spec's
BusParameters), with the Python defaults recorded in `defaultParams`. -/
structure Params where
  xlen : Nat
  ilen : Nat
  nret : Nat
  with_clk : Bool
  with_rst : Bool
  with_isn_meta : Bool
  with_int_reg : Bool
  with_pc : Bool
  with_mem : Bool
  with_spec_exec : Bool
  csr_names : List String
deriving Repr, DecidableEq

/-- Python default arguments: `xlen=32, ilen=32, nret=1`, all feature
flags `True`, `csr_names=set()`. -/
def defaultParams : Params :=
  { xlen := 32, ilen := 32, nret := 1,
    with_clk := true, with_rst := true, with_isn_meta := true,
    with_int_reg := true, with_pc := true, with_mem := true,
    with_spec_exec := true, csr_names := [] }

/-- `if with_clk: interface["clk"] = Signal()` (a `Signal()` is 1 bit wide). -/
def clkSignals (p : Params) : List (String × Nat) :=
  if p.with_clk then [("clk", 1)] else []

/-- `if with_rst: interface["rst"] = Signal()`. -/
def rstSignals (p : Params) : List (String × Nat) :=
  if p.with_rst then [("rst", 1)] else []

/-- The Instruction Metadata block of `__init__`. -/
def isnMetaSignals (p : Params) : List (String × Nat) :=
  if p.with_isn_meta then
    [("rvfi_valid", p.nret),
     ("rvfi_order", p.nret * 64),
     ("rvfi_insn", p.nret * p.ilen),
     ("rvfi_trap", p.nret),
     ("rvfi_halt", p.nret),
     ("rvfi_intr", p.nret),
     ("rvfi_mode", p.nret * 2),
     ("rvfi_ixl", p.nret * 2)]
  else []

/-- The Integer Register Read/Write block of `__init__`. -/
def intRegSignals (p : Params) : List (String × Nat) :=
  if p.with_int_reg then
    [("rvfi_rs1_addr", p.nret * 5),
     ("rvfi_rs2_addr", p.nret * 5),
     ("rvfi_rs1_rdata", p.nret * p.xlen),
     ("rvfi_rs2_rdata", p.nret * p.xlen),
     ("rvfi_rd_addr", p.nret * 5),
     ("rvfi_rd_wdata", p.nret * p.xlen)]
  else []

/-- The Program Counter block of `__init__`. -/
def pcSignals (p : Params) : List (String × Nat) :=
  if p.with_pc then
    [("rvfi_pc_rdata", p.nret * p.xlen),
     ("rvfi_pc_wdata", p.nret * p.xlen)]
  else []

/-- The Memory Access block of `__init__`. -/
def memSignals (p : Params) : List (String × Nat) :=
  if p.with_mem then
    [("rvfi_mem_addr", p.nret * p.xlen),
     ("rvfi_mem_rmask", p.nret * (p.xlen / 8)),
     ("rvfi_mem_wmask", p.nret * (p.xlen / 8)),
     ("rvfi_mem_rdata", p.nret * p.xlen),
     ("rvfi_mem_wdata", p.nret * p.xlen)]
  else []

/-- The Control and Status Register block of `__init__`: four signals per
name in `csr_names`, every one `nret * xlen` bits wide. -/
def csrSignals (p : Params) : List (String × Nat) :=
  p.csr_names.flatMap fun c =>
    [("rvfi_csr_" ++ c ++ "_rmask", p.nret * p.xlen),
     ("rvfi_csr_" ++ c ++ "_wmask", p.nret * p.xlen),
     ("rvfi_csr_" ++ c ++ "_rdata", p.nret * p.xlen),
     ("rvfi_csr_" ++ c ++ "_wdata", p.nret * p.xlen)]

/-- The complete `interface` dictionary of `__init__`, in insertion order. -/
def interfaceSignals (p : Params) : List (String × Nat) :=
  clkSignals p ++ rstSignals p ++ isnMetaSignals p ++ intRegSignals p ++
    pcSignals p ++ memSignals p ++ csrSignals p

/-- Source expression of a combinational assignment emitted by
`slice_nret`: either a whole parent signal
(`getattr(self, signal_name)`) or a bit range of one
(`nret_signal[ret_idx*width:(ret_idx+1)*width]`). -/
inductive SrcExpr where
  | whole (name : String)
  | slice (name : String) (lo hi : Nat)
deriving Repr, DecidableEq

/-- One `self.comb += [getattr(tgt, name).eq(...)]` statement: the target
slice index, the target signal name (identical to the source name), and
the source expression over the parent bus. -/
structure CombAssign where
  lane : Nat
  dst : String
  src : SrcExpr
deriving Repr, DecidableEq

/-- A constructed `RiscvFormalInterface`: its parameter record
(`self.params`), its signal dictionary (`interface`, as an ordered
(name, width) list) and the combinational statements accumulated on it
(`self.comb`). -/
structure Bus where
  params : Params
  interface : List (String × Nat)
  comb : List CombAssign
deriving Repr, DecidableEq

/-- `self.signal_names = set(interface.keys())` (kept in insertion
order). -/
def Bus.signalNames (b : Bus) : List String :=
  b.interface.map Prod.fst

/-- `self.nret_signal_names`: signal names other than `clk` and `rst`. -/
def Bus.nretSignalNames (b : Bus) : List String :=
  b.signalNames.filter fun n => !(n == "clk" || n == "rst")

/-- `signal_names - nret_signal_names`: the `clk`/`rst` names present. -/
def Bus.globalSignalNames (b : Bus) : List String :=
  b.signalNames.filter fun n => n == "clk" || n == "rst"

/-- `getattr(self, name)`: the (name, width) entry for `name`, if the
signal exists on the bus. -/
def Bus.getSignal (b : Bus) (n : String) : Option (String × Nat) :=
  b.interface.find? fun s => s.1 == n

/-- `len(getattr(self, name))`: the width of signal `name` (0 if absent;
all uses are guarded by existence). -/
def Bus.width (b : Bus) (n : String) : Nat :=
  ((b.getSignal n).map Prod.snd).getD 0

/-- The bus built once the constructor's assertions have passed. -/
def mkBusCore (p : Params) : Bus :=
  { params := p, interface := interfaceSignals p, comb := [] }

/-- `RiscvFormalInterface.__init__`: the three assertions
(`xlen % 8 == 0`, `ilen % 8 == 0`, `nret >= 1`) guard construction, and
every `Signal(width)` call made while building `interface` requires a
strictly positive width (migen's `Signal` wraps its reset value in a
`Constant`, which rejects non-positive widths with a `TypeError`), so
construction also fails when any composed signal would be zero bits
wide; on failure no bus is produced. -/
def mkBus (p : Params) : Option Bus :=
  if p.xlen % 8 = 0 ∧ p.ilen % 8 = 0 ∧ 1 ≤ p.nret ∧
      ∀ s ∈ interfaceSignals p, 0 < s.2 then
    some (mkBusCore p)
  else none

/-- The combinational assignments emitted for slice `ret_idx` by one
iteration of the outer loop of `slice_nret`: whole-signal copies for the
global (`clk`/`rst`) names, then the bit range
`[ret_idx * width, (ret_idx + 1) * width)` for every `nret`-scaled
name, where `width = len(signal) // nret`. -/
def sliceNretAssigns (b : Bus) (ret_idx : Nat) : List CombAssign :=
  (b.globalSignalNames.map fun n =>
    { lane := ret_idx, dst := n, src := SrcExpr.whole n }) ++
  (b.nretSignalNames.map fun n =>
    let width := b.width n / b.params.nret
    { lane := ret_idx, dst := n,
      src := SrcExpr.slice n (ret_idx * width) ((ret_idx + 1) * width) })

/-- The two assertions inside the scaled-signal loop of `slice_nret`:
`(len(nret_signal) / nret).is_integer()` and
`len(getattr(tgt, signal_name)) == width`. -/
def sliceChecksOk (b tgt : Bus) : Bool :=
  b.nretSignalNames.all fun n =>
    (b.width n % b.params.nret == 0) &&
      (tgt.width n == b.width n / b.params.nret)

/-- One iteration of the loop of `slice_nret`: construct a fresh bus from
the parent's parameters with `nret` overridden to 1, check the width
assertions, and produce the slice together with the assignments wired
for it. -/
def sliceOneLane (b : Bus) (ret_idx : Nat) : Option (Bus × List CombAssign) :=
  (mkBus { b.params with nret := 1 }).bind fun tgt =>
    if sliceChecksOk b tgt then some (tgt, sliceNretAssigns b ret_idx)
    else none

/-- The loop `for ret_idx in range(0, nret)` of `slice_nret`, aborting on
the first failed assertion. -/
def sliceLanes (b : Bus) : List Nat → Option (List (Bus × List CombAssign))
  | [] => some []
  | i :: rest =>
    (sliceOneLane b i).bind fun r =>
      (sliceLanes b rest).bind fun rs => some (r :: rs)

/-- `RiscvFormalInterface.slice_nret`: returns the parent bus with the
emitted combinational assignments appended to its `comb` list, and the
ordered list of `nret` single-retirement slices. -/
def sliceNret (b : Bus) : Option (Bus × List Bus) :=
  (sliceLanes b (List.range b.params.nret)).bind fun results =>
    some ({ b with comb := b.comb ++ (results.map Prod.snd).flatten },
      results.map Prod.fst)

/-- Value of a source expression given the parent signal's value `v`:
migen's `signal[lo:hi]` selects bits `lo` (least significant) up to
`hi` (exclusive). -/
def evalSrcExpr (v : Nat) : SrcExpr → Nat
  | SrcExpr.whole _ => v
  | SrcExpr.slice _ lo hi => v / 2 ^ lo % 2 ^ (hi - lo)

/-- The value carried by signal `n` of slice `i` when the parent signal
`n` of bus `b` carries value `v`: the value of the source expression of
the combinational assignment that `slice_nret` wires into that slice. -/
def laneValue (b : Bus) (n : String) (v : Nat) (i : Nat) : Nat :=
  match (sliceNretAssigns b i).find? (fun a => a.dst == n) with
  | some a => evalSrcExpr v a.src
  | none => 0

/-- Concatenation of per-lane values, lane 0 at the least significant
bits, each lane `w` bits wide. -/
def concatLanes (w : Nat) (lanes : List Nat) : Nat :=
  lanes.foldr (fun l acc => l + acc * 2 ^ w) 0

/-- A port binding of the `ibex_tracer` `Instance`: a bus signal passed
through, the bitwise complement of a bus signal (`~rvfi.rst`), or a
`Constant(value, bits_sign=width)`. -/
inductive PortExpr where
  | sig (name : String)
  | notSig (name : String)
  | const (width : Nat) (val : Nat)
deriving Repr, DecidableEq

/-- The fixed port list of the external `ibex_tracer` component, one field
per keyword argument of the `Instance` call. -/
structure IbexTracer where
  i_clk_i : PortExpr
  i_rst_ni : PortExpr
  i_hart_id_i : PortExpr
  i_rvfi_valid : PortExpr
  i_rvfi_order : PortExpr
  i_rvfi_insn : PortExpr
  i_rvfi_trap : PortExpr
  i_rvfi_halt : PortExpr
  i_rvfi_intr : PortExpr
  i_rvfi_mode : PortExpr
  i_rvfi_ixl : PortExpr
  i_rvfi_rs1_addr : PortExpr
  i_rvfi_rs2_addr : PortExpr
  i_rvfi_rs3_addr : PortExpr
  i_rvfi_rs1_rdata : PortExpr
  i_rvfi_rs2_rdata : PortExpr
  i_rvfi_rs3_rdata : PortExpr
  i_rvfi_rd_addr : PortExpr
  i_rvfi_rd_wdata : PortExpr
  i_rvfi_pc_rdata : PortExpr
  i_rvfi_pc_wdata : PortExpr
  i_rvfi_mem_addr : PortExpr
  i_rvfi_mem_rmask : PortExpr
  i_rvfi_mem_wmask : PortExpr
  i_rvfi_mem_rdata : PortExpr
  i_rvfi_mem_wdata : PortExpr
deriving Repr, DecidableEq

/-- The bus attributes `IbexTracer.__init__` reads via `getattr`: a
missing one aborts construction. -/
def ibexTracerRequired : List String :=
  ["clk", "rst", "rvfi_valid", "rvfi_order", "rvfi_insn", "rvfi_trap",
   "rvfi_halt", "rvfi_intr", "rvfi_mode", "rvfi_ixl",
   "rvfi_rs1_addr", "rvfi_rs2_addr", "rvfi_rs1_rdata", "rvfi_rs2_rdata",
   "rvfi_rd_addr", "rvfi_rd_wdata", "rvfi_pc_rdata", "rvfi_pc_wdata",
   "rvfi_mem_addr", "rvfi_mem_rmask", "rvfi_mem_wmask",
   "rvfi_mem_rdata", "rvfi_mem_wdata"]

/-- `IbexTracer.__init__`: asserts `rvfi.params["nret"] == 1`, reads the
bus signals, and instantiates `ibex_tracer` with the fixed port
bindings of the source: clock passed through, reset complemented, the
hart id as a 32-bit constant, the third source-register ports as zero
constants of the widths of `rvfi_rs1_addr` and `rvfi_rs1_rdata`, and
every other signal passed through by name. -/
def mkIbexTracer (rvfi : Bus) (cpu_hart : Nat) : Option IbexTracer :=
  if rvfi.params.nret = 1 ∧ ibexTracerRequired.all (fun n => (rvfi.getSignal n).isSome) then
    some
      { i_clk_i := PortExpr.sig "clk",
        i_rst_ni := PortExpr.notSig "rst",
        i_hart_id_i := PortExpr.const 32 cpu_hart,
        i_rvfi_valid := PortExpr.sig "rvfi_valid",
        i_rvfi_order := PortExpr.sig "rvfi_order",
        i_rvfi_insn := PortExpr.sig "rvfi_insn",
        i_rvfi_trap := PortExpr.sig "rvfi_trap",
        i_rvfi_halt := PortExpr.sig "rvfi_halt",
        i_rvfi_intr := PortExpr.sig "rvfi_intr",
        i_rvfi_mode := PortExpr.sig "rvfi_mode",
        i_rvfi_ixl := PortExpr.sig "rvfi_ixl",
        i_rvfi_rs1_addr := PortExpr.sig "rvfi_rs1_addr",
        i_rvfi_rs2_addr := PortExpr.sig "rvfi_rs2_addr",
        i_rvfi_rs3_addr := PortExpr.const (rvfi.width "rvfi_rs1_addr") 0,
        i_rvfi_rs1_rdata := PortExpr.sig "rvfi_rs1_rdata",
        i_rvfi_rs2_rdata := PortExpr.sig "rvfi_rs2_rdata",
        i_rvfi_rs3_rdata := PortExpr.const (rvfi.width "rvfi_rs1_rdata") 0,
        i_rvfi_rd_addr := PortExpr.sig "rvfi_rd_addr",
        i_rvfi_rd_wdata := PortExpr.sig "rvfi_rd_wdata",
        i_rvfi_pc_rdata := PortExpr.sig "rvfi_pc_rdata",
        i_rvfi_pc_wdata := PortExpr.sig "rvfi_pc_wdata",
        i_rvfi_mem_addr := PortExpr.sig "rvfi_mem_addr",
        i_rvfi_mem_rmask := PortExpr.sig "rvfi_mem_rmask",
        i_rvfi_mem_wmask := PortExpr.sig "rvfi_mem_wmask",
        i_rvfi_mem_rdata := PortExpr.sig "rvfi_mem_rdata",
        i_rvfi_mem_wdata := PortExpr.sig "rvfi_mem_wdata" }
  else none

/-- Value of a tracer port binding under a valuation `sigv` of the bus
signals, with `wOf` giving each bus signal's width (a complemented
signal is the bitwise complement within its width). -/
def evalPort (sigv : String → Nat) (wOf : String → Nat) : PortExpr → Nat
  | PortExpr.sig n => sigv n
  | PortExpr.notSig n => 2 ^ wOf n - 1 - sigv n
  | PortExpr.const _ v => v

/-- The signal catalog exactly as the specification's component contract
states it (spec section 4.1), for comparison with the composed
`interface`: each feature group gated by its flag, every
retirement-scaled width written as the stated per-lane width scaled by
`nret`. -/
def specSignalCatalog (p : Params) : List (String × Nat) :=
  (if p.with_clk then [("clk", 1)] else []) ++
  (if p.with_rst then [("rst", 1)] else []) ++
  (if p.with_isn_meta then
    [("rvfi_valid", p.nret * 1),
     ("rvfi_order", p.nret * 64),
     ("rvfi_insn", p.nret * p.ilen),
     ("rvfi_trap", p.nret * 1),
     ("rvfi_halt", p.nret * 1),
     ("rvfi_intr", p.nret * 1),
     ("rvfi_mode", p.nret * 2),
     ("rvfi_ixl", p.nret * 2)]
   else []) ++
  (if p.with_int_reg then
    [("rvfi_rs1_addr", p.nret * 5),
     ("rvfi_rs2_addr", p.nret * 5),
     ("rvfi_rs1_rdata", p.nret * p.xlen),
     ("rvfi_rs2_rdata", p.nret * p.xlen),
     ("rvfi_rd_addr", p.nret * 5),
     ("rvfi_rd_wdata", p.nret * p.xlen)]
   else []) ++
  (if p.with_pc then
    [("rvfi_pc_rdata", p.nret * p.xlen),
     ("rvfi_pc_wdata", p.nret * p.xlen)]
   else []) ++
  (if p.with_mem then
    [("rvfi_mem_addr", p.nret * p.xlen),
     ("rvfi_mem_rmask", p.nret * (p.xlen / 8)),
     ("rvfi_mem_wmask", p.nret * (p.xlen / 8)),
     ("rvfi_mem_rdata", p.nret * p.xlen),
     ("rvfi_mem_wdata", p.nret * p.xlen)]
   else []) ++
  (p.csr_names.flatMap fun c =>
    [("rvfi_csr_" ++ c ++ "_rmask", p.nret * p.xlen),
     ("rvfi_csr_" ++ c ++ "_wmask", p.nret * p.xlen),
     ("rvfi_csr_" ++ c ++ "_rdata", p.nret * p.xlen),
     ("rvfi_csr_" ++ c ++ "_wdata", p.nret * p.xlen)])

/-- Demonstration parameters for concrete instantiations: defaults with
`nret = 2`. -/
def demoParams : Params := { defaultParams with nret := 2 }

/-- The bus composed from `demoParams`. -/
def demoBus : Bus := mkBusCore demoParams

/-- Single-retirement demonstration parameters (the Python defaults). -/
def demoParams1 : Params := defaultParams

/-- The bus composed from `demoParams1`. -/
def demoBus1 : Bus := mkBusCore demoParams1

/-- Demonstration parameters with two extension registers. -/
def demoParamsCsr : Params :=
  { defaultParams with csr_names := ["mstatus", "mcause"] }

/-- The bus composed from `demoParamsCsr`. -/
def demoBusCsr : Bus := mkBusCore demoParamsCsr

/-- The parent bus after slicing `demoBus`: the same bus with the emitted
combinational assignments appended. -/
def demoSlicedParent : Bus :=
  { demoBus with
    comb := (List.range demoParams.nret).flatMap (sliceNretAssigns demoBus) }

/-- The slices produced for `demoBus`. -/
def demoSlices : List Bus :=
  List.replicate demoParams.nret (mkBusCore { demoParams with nret := 1 })

/-- The tracer instance produced for `demoBus1` with hart id 0. -/
def demoTracer : IbexTracer :=
  { i_clk_i := PortExpr.sig "clk",
    i_rst_ni := PortExpr.notSig "rst",
    i_hart_id_i := PortExpr.const 32 0,
    i_rvfi_valid := PortExpr.sig "rvfi_valid",
    i_rvfi_order := PortExpr.sig "rvfi_order",
    i_rvfi_insn := PortExpr.sig "rvfi_insn",
    i_rvfi_trap := PortExpr.sig "rvfi_trap",
    i_rvfi_halt := PortExpr.sig "rvfi_halt",
    i_rvfi_intr := PortExpr.sig "rvfi_intr",
    i_rvfi_mode := PortExpr.sig "rvfi_mode",
    i_rvfi_ixl := PortExpr.sig "rvfi_ixl",
    i_rvfi_rs1_addr := PortExpr.sig "rvfi_rs1_addr",
    i_rvfi_rs2_addr := PortExpr.sig "rvfi_rs2_addr",
    i_rvfi_rs3_addr := PortExpr.const 5 0,
    i_rvfi_rs1_rdata := PortExpr.sig "rvfi_rs1_rdata",
    i_rvfi_rs2_rdata := PortExpr.sig "rvfi_rs2_rdata",
    i_rvfi_rs3_rdata := PortExpr.const 32 0,
    i_rvfi_rd_addr := PortExpr.sig "rvfi_rd_addr",
    i_rvfi_rd_wdata := PortExpr.sig "rvfi_rd_wdata",
    i_rvfi_pc_rdata := PortExpr.sig "rvfi_pc_rdata",
    i_rvfi_pc_wdata := PortExpr.sig "rvfi_pc_wdata",
    i_rvfi_mem_addr := PortExpr.sig "rvfi_mem_addr",
    i_rvfi_mem_rmask := PortExpr.sig "rvfi_mem_rmask",
    i_rvfi_mem_wmask := PortExpr.sig "rvfi_mem_wmask",
    i_rvfi_mem_rdata := PortExpr.sig "rvfi_mem_rdata",
    i_rvfi_mem_wdata := PortExpr.sig "rvfi_mem_wdata" }

/-! ### Structural lemmas about the composed interface -/

/-- The retirement-scaled tail of the interface: everything after the
`clk`/`rst` entries. -/
def scaledSignals (p : Params) : List (String × Nat) :=
  isnMetaSignals p ++ intRegSignals p ++ pcSignals p ++ memSignals p ++
    csrSignals p

lemma interfaceSignals_split (p : Params) :
    interfaceSignals p = clkSignals p ++ rstSignals p ++ scaledSignals p := by
  simp [interfaceSignals, scaledSignals, List.append_assoc]

lemma mem_clkSignals (p : Params) {s : String × Nat} (hs : s ∈ clkSignals p) :
    s = ("clk", 1) := by
  unfold clkSignals at hs
  split at hs <;> simp_all

lemma mem_rstSignals (p : Params) {s : String × Nat} (hs : s ∈ rstSignals p) :
    s = ("rst", 1) := by
  unfold rstSignals at hs
  split at hs <;> simp_all

lemma scaledSignals_dvd (p : Params) :
    ∀ s ∈ scaledSignals p, p.nret ∣ s.2 := by
  intro s hs
  simp only [scaledSignals, List.mem_append] at hs
  rcases hs with (((h | h) | h) | h) | h
  · unfold isnMetaSignals at h
    split at h
    · simp only [List.mem_cons, List.not_mem_nil, or_false] at h
      rcases h with rfl | rfl | rfl | rfl | rfl | rfl | rfl | rfl <;>
        first
          | exact dvd_refl _
          | exact dvd_mul_right _ _
    · simp at h
  · unfold intRegSignals at h
    split at h
    · simp only [List.mem_cons, List.not_mem_nil, or_false] at h
      rcases h with rfl | rfl | rfl | rfl | rfl | rfl <;> exact dvd_mul_right _ _
    · simp at h
  · unfold pcSignals at h
    split at h
    · simp only [List.mem_cons, List.not_mem_nil, or_false] at h
      rcases h with rfl | rfl <;> exact dvd_mul_right _ _
    · simp at h
  · unfold memSignals at h
    split at h
    · simp only [List.mem_cons, List.not_mem_nil, or_false] at h
      rcases h with rfl | rfl | rfl | rfl | rfl <;> exact dvd_mul_right _ _
    · simp at h
  · unfold csrSignals at h
    rw [List.mem_flatMap] at h
    obtain ⟨c, _, h⟩ := h
    simp only [List.mem_cons, List.not_mem_nil, or_false] at h
    rcases h with rfl | rfl | rfl | rfl <;> exact dvd_mul_right _ _

lemma isnMetaSignals_nret_one (p : Params) (hp : 0 < p.nret) :
    isnMetaSignals { p with nret := 1 } =
      (isnMetaSignals p).map fun s => (s.1, s.2 / p.nret) := by
  unfold isnMetaSignals
  by_cases h : p.with_isn_meta <;>
    simp [h, Nat.div_self hp, Nat.mul_div_cancel_left _ hp]

lemma intRegSignals_nret_one (p : Params) (hp : 0 < p.nret) :
    intRegSignals { p with nret := 1 } =
      (intRegSignals p).map fun s => (s.1, s.2 / p.nret) := by
  unfold intRegSignals
  by_cases h : p.with_int_reg <;>
    simp [h, Nat.mul_div_cancel_left _ hp]

lemma pcSignals_nret_one (p : Params) (hp : 0 < p.nret) :
    pcSignals { p with nret := 1 } =
      (pcSignals p).map fun s => (s.1, s.2 / p.nret) := by
  unfold pcSignals
  by_cases h : p.with_pc <;>
    simp [h, Nat.mul_div_cancel_left _ hp]

lemma memSignals_nret_one (p : Params) (hp : 0 < p.nret) :
    memSignals { p with nret := 1 } =
      (memSignals p).map fun s => (s.1, s.2 / p.nret) := by
  unfold memSignals
  by_cases h : p.with_mem <;>
    simp [h, Nat.mul_div_cancel_left _ hp]

lemma csrSignals_nret_one (p : Params) (hp : 0 < p.nret) :
    csrSignals { p with nret := 1 } =
      (csrSignals p).map fun s => (s.1, s.2 / p.nret) := by
  unfold csrSignals
  rw [List.map_flatMap]
  show List.flatMap p.csr_names _ = List.flatMap p.csr_names _
  congr 1
  funext c
  simp [Nat.mul_div_cancel_left _ hp]

lemma scaledSignals_nret_one (p : Params) (hp : 0 < p.nret) :
    scaledSignals { p with nret := 1 } =
      (scaledSignals p).map fun s => (s.1, s.2 / p.nret) := by
  simp only [scaledSignals, List.map_append,
    isnMetaSignals_nret_one p hp, intRegSignals_nret_one p hp,
    pcSignals_nret_one p hp, memSignals_nret_one p hp,
    csrSignals_nret_one p hp]

lemma clkSignals_nret_one (p : Params) :
    clkSignals { p with nret := 1 } = clkSignals p := rfl

lemma rstSignals_nret_one (p : Params) :
    rstSignals { p with nret := 1 } = rstSignals p := rfl

/-! ### Signal lookup lemmas -/

lemma find?_name_of_mem {l : List (String × Nat)} {n : String}
    (hn : n ∈ l.map Prod.fst) :
    ∃ s, l.find? (fun s => s.1 == n) = some s ∧ s ∈ l ∧ s.1 = n := by
  induction l with
  | nil => simp at hn
  | cons a l ih =>
    by_cases ha : a.1 = n
    · exact ⟨a, by simp [List.find?_cons_of_pos, ha], List.mem_cons_self a l, ha⟩
    · have hn' : n ∈ l.map Prod.fst := by
        simp only [List.map_cons, List.mem_cons] at hn
        rcases hn with h | h
        · exact absurd h.symm ha
        · exact h
      obtain ⟨s, hfind, hmem, hname⟩ := ih hn'
      refine ⟨s, ?_, List.mem_cons_of_mem a hmem, hname⟩
      rw [List.find?_cons_of_neg, hfind]
      simp [ha]

lemma find?_interface_skip_global (p : Params) (n : String)
    (hclk : n ≠ "clk") (hrst : n ≠ "rst") :
    (interfaceSignals p).find? (fun s => s.1 == n) =
      (scaledSignals p).find? (fun s => s.1 == n) := by
  rw [interfaceSignals_split, List.append_assoc, List.find?_append,
    List.find?_append]
  have h1 : (clkSignals p).find? (fun s => s.1 == n) = none := by
    rw [List.find?_eq_none]
    intro s hs
    rw [mem_clkSignals p hs]
    simp [Ne.symm hclk]
  have h2 : (rstSignals p).find? (fun s => s.1 == n) = none := by
    rw [List.find?_eq_none]
    intro s hs
    rw [mem_rstSignals p hs]
    simp [Ne.symm hrst]
  rw [h1, h2, Option.none_or, Option.none_or]

lemma mem_nretSignalNames_ne (b : Bus) (n : String)
    (hn : n ∈ b.nretSignalNames) : n ≠ "clk" ∧ n ≠ "rst" := by
  unfold Bus.nretSignalNames at hn
  have := (List.mem_filter.1 hn).2
  constructor <;> intro h <;> subst h <;> simp at this

lemma mem_nretSignalNames_names (b : Bus) (n : String)
    (hn : n ∈ b.nretSignalNames) : n ∈ b.signalNames :=
  (List.mem_filter.1 hn).1

/-- For a composed bus, every retirement-scaled signal name resolves to an
entry of the scaled tail, its width is divisible by `nret`, and the
corresponding signal of the `nret = 1` bus has the lane width. -/
lemma width_facts (p : Params) (hp : 0 < p.nret) (n : String)
    (hn : n ∈ (mkBusCore p).nretSignalNames) :
    p.nret ∣ (mkBusCore p).width n ∧
      (mkBusCore { p with nret := 1 }).width n = (mkBusCore p).width n / p.nret := by
  obtain ⟨hclk, hrst⟩ := mem_nretSignalNames_ne _ _ hn
  have hmem : n ∈ (interfaceSignals p).map Prod.fst :=
    mem_nretSignalNames_names _ _ hn
  obtain ⟨s, hfind, hsmem, hname⟩ := find?_name_of_mem hmem
  have hfind' : (scaledSignals p).find? (fun s => s.1 == n) = some s := by
    rw [← find?_interface_skip_global p n hclk hrst]; exact hfind
  have hsscaled : s ∈ scaledSignals p := List.mem_of_find?_eq_some hfind'
  have hdvd : p.nret ∣ s.2 := scaledSignals_dvd p s hsscaled
  have hw : (mkBusCore p).width n = s.2 := by
    simp [Bus.width, Bus.getSignal, mkBusCore, hfind]
  have hfind1 : (scaledSignals { p with nret := 1 }).find? (fun s => s.1 == n) =
      some (s.1, s.2 / p.nret) := by
    rw [scaledSignals_nret_one p hp, List.find?_map]
    have : ((fun s : String × Nat => s.1 == n) ∘ fun s : String × Nat => (s.1, s.2 / p.nret)) =
        fun s : String × Nat => s.1 == n := rfl
    rw [this, hfind']
    rfl
  have hw1 : (mkBusCore { p with nret := 1 }).width n = s.2 / p.nret := by
    simp only [Bus.width, Bus.getSignal, mkBusCore]
    rw [find?_interface_skip_global _ n hclk hrst, hfind1]
    rfl
  exact ⟨hw ▸ hdvd, by rw [hw1, hw]⟩

/-! ### Slicing lemmas -/

lemma nretSignalNames_nret_one (p : Params) (hp : 0 < p.nret) :
    (mkBusCore { p with nret := 1 }).nretSignalNames =
      (mkBusCore p).nretSignalNames := by
  unfold Bus.nretSignalNames Bus.signalNames mkBusCore
  simp only
  rw [interfaceSignals_split, interfaceSignals_split,
    clkSignals_nret_one, rstSignals_nret_one, scaledSignals_nret_one p hp]
  simp only [List.map_append, List.map_map]
  rfl

lemma sliceChecksOk_mkBus (p : Params) (hp : 0 < p.nret) :
    sliceChecksOk (mkBusCore p) (mkBusCore { p with nret := 1 }) = true := by
  rw [sliceChecksOk, List.all_eq_true]
  intro n hn
  obtain ⟨hdvd, hw1⟩ := width_facts p hp n hn
  have hnret : (mkBusCore p).params.nret = p.nret := rfl
  rw [hnret, hw1]
  simp [Nat.mod_eq_zero_of_dvd hdvd]

lemma mkBus_valid (p : Params) (h8x : p.xlen % 8 = 0) (h8i : p.ilen % 8 = 0)
    (h1 : 1 ≤ p.nret) (hpos : ∀ s ∈ interfaceSignals p, 0 < s.2) :
    mkBus p = some (mkBusCore p) := by
  unfold mkBus
  rw [if_pos ⟨h8x, h8i, h1, hpos⟩]

lemma interface_pos_nret_one (p : Params) (hp : 0 < p.nret)
    (hpos : ∀ s ∈ interfaceSignals p, 0 < s.2) :
    ∀ s ∈ interfaceSignals { p with nret := 1 }, 0 < s.2 := by
  intro s hs
  rw [interfaceSignals_split] at hs
  rcases List.mem_append.1 hs with hs | hs
  · rcases List.mem_append.1 hs with hs | hs
    · rw [mem_clkSignals _ hs]
      norm_num
    · rw [mem_rstSignals _ hs]
      norm_num
  · rw [scaledSignals_nret_one p hp, List.mem_map] at hs
    obtain ⟨t, ht, rfl⟩ := hs
    have htpos : 0 < t.2 := by
      apply hpos
      rw [interfaceSignals_split]
      exact List.mem_append_right _ ht
    obtain ⟨k, hk⟩ := scaledSignals_dvd p t ht
    show 0 < t.2 / p.nret
    rw [hk, Nat.mul_div_cancel_left _ hp]
    rcases Nat.eq_zero_or_pos k with rfl | h
    · rw [hk, Nat.mul_zero] at htpos
      exact absurd htpos (lt_irrefl 0)
    · exact h

lemma sliceOneLane_mkBus (p : Params) (h8x : p.xlen % 8 = 0)
    (h8i : p.ilen % 8 = 0) (h1 : 1 ≤ p.nret)
    (hpos : ∀ s ∈ interfaceSignals p, 0 < s.2) (i : Nat) :
    sliceOneLane (mkBusCore p) i =
      some (mkBusCore { p with nret := 1 },
        sliceNretAssigns (mkBusCore p) i) := by
  unfold sliceOneLane
  have hparams : { (mkBusCore p).params with nret := 1 } = { p with nret := 1 } := rfl
  rw [hparams, mkBus_valid { p with nret := 1 } h8x h8i (le_refl 1)
      (interface_pos_nret_one p h1 hpos),
    Option.some_bind, if_pos (sliceChecksOk_mkBus p h1)]

lemma sliceLanes_mkBus (p : Params) (h8x : p.xlen % 8 = 0)
    (h8i : p.ilen % 8 = 0) (h1 : 1 ≤ p.nret)
    (hpos : ∀ s ∈ interfaceSignals p, 0 < s.2) (l : List Nat) :
    sliceLanes (mkBusCore p) l =
      some (l.map fun i => (mkBusCore { p with nret := 1 },
        sliceNretAssigns (mkBusCore p) i)) := by
  induction l with
  | nil => rfl
  | cons i l ih =>
    unfold sliceLanes
    rw [sliceOneLane_mkBus p h8x h8i h1 hpos i, ih, Option.some_bind,
      Option.some_bind, List.map_cons]

lemma sliceNret_mkBus (p : Params) (h8x : p.xlen % 8 = 0)
    (h8i : p.ilen % 8 = 0) (h1 : 1 ≤ p.nret)
    (hpos : ∀ s ∈ interfaceSignals p, 0 < s.2) :
    sliceNret (mkBusCore p) =
      some ({ mkBusCore p with
          comb := (List.range p.nret).flatMap (sliceNretAssigns (mkBusCore p)) },
        List.replicate p.nret (mkBusCore { p with nret := 1 })) := by
  unfold sliceNret
  have hnret : (mkBusCore p).params.nret = p.nret := rfl
  rw [hnret, sliceLanes_mkBus p h8x h8i h1 hpos]
  simp only [List.map_map]
  have hfst : ((List.range p.nret).map
      ((Prod.fst ∘ fun i => (mkBusCore { p with nret := 1 },
        sliceNretAssigns (mkBusCore p) i)))) =
      List.replicate p.nret (mkBusCore { p with nret := 1 }) := by
    rw [show (Prod.fst ∘ fun i : Nat => (mkBusCore { p with nret := 1 },
        sliceNretAssigns (mkBusCore p) i)) =
        fun _ : Nat => mkBusCore { p with nret := 1 } from rfl]
    rw [List.map_const', List.length_range]
  have hsnd : ((List.range p.nret).map
      ((Prod.snd ∘ fun i => (mkBusCore { p with nret := 1 },
        sliceNretAssigns (mkBusCore p) i)))).flatten =
      (List.range p.nret).flatMap (sliceNretAssigns (mkBusCore p)) := by
    rw [List.flatMap_def]
    rfl
  rw [Option.some_bind, List.map_map, List.map_map, hfst, hsnd]
  simp [mkBusCore]

/-! ### Per-lane assignment lemmas -/

lemma mem_globalSignalNames_eq (b : Bus) (m : String)
    (hm : m ∈ b.globalSignalNames) : (m == "clk" || m == "rst") = true :=
  (List.mem_filter.1 hm).2

lemma find?_dst_map {n : String} {l : List String} {f : String → CombAssign}
    (hf : ∀ m, (f m).dst = m) (hn : n ∈ l) :
    (l.map f).find? (fun a => a.dst == n) = some (f n) := by
  induction l with
  | nil => simp at hn
  | cons m l ih =>
    by_cases hm : m = n
    · subst hm
      rw [List.map_cons, List.find?_cons_of_pos]
      simp [hf]
    · have hn' : n ∈ l := by
        rcases List.mem_cons.1 hn with h | h
        · exact absurd h.symm hm
        · exact h
      rw [List.map_cons, List.find?_cons_of_neg, ih hn']
      simp [hf, hm]

lemma find?_sliceNretAssigns (b : Bus) (i : Nat) (n : String)
    (hn : n ∈ b.nretSignalNames) :
    (sliceNretAssigns b i).find? (fun a => a.dst == n) =
      some
        { lane := i,
          dst := n,
          src := SrcExpr.slice n (i * (b.width n / b.params.nret))
            ((i + 1) * (b.width n / b.params.nret)) } := by
  obtain ⟨hclk, hrst⟩ := mem_nretSignalNames_ne b n hn
  unfold sliceNretAssigns
  rw [List.find?_append]
  have hglob : ((b.globalSignalNames.map fun m =>
      ({ lane := i, dst := m, src := SrcExpr.whole m } : CombAssign)).find?
        (fun a => a.dst == n)) = none := by
    rw [List.find?_eq_none]
    intro a ha
    rw [List.mem_map] at ha
    obtain ⟨m, hm, rfl⟩ := ha
    have := mem_globalSignalNames_eq b m hm
    simp only [Bool.or_eq_true, beq_iff_eq] at this
    simp only [beq_iff_eq]
    rcases this with rfl | rfl
    · exact Ne.symm hclk
    · exact Ne.symm hrst
  rw [hglob, Option.none_or]
  exact find?_dst_map (fun m => rfl) hn

lemma laneValue_eq (b : Bus) (n : String) (v i : Nat)
    (hn : n ∈ b.nretSignalNames) :
    laneValue b n v i =
      v / 2 ^ (i * (b.width n / b.params.nret)) %
        2 ^ (b.width n / b.params.nret) := by
  unfold laneValue
  rw [find?_sliceNretAssigns b i n hn]
  have hsub : (i + 1) * (b.width n / b.params.nret) -
      i * (b.width n / b.params.nret) = b.width n / b.params.nret := by
    rw [Nat.succ_mul]
    exact Nat.add_sub_cancel_left ..
  show v / 2 ^ (i * (b.width n / b.params.nret)) %
      2 ^ ((i + 1) * (b.width n / b.params.nret) -
        i * (b.width n / b.params.nret)) =
    v / 2 ^ (i * (b.width n / b.params.nret)) %
      2 ^ (b.width n / b.params.nret)
  rw [hsub]

/-! ### Lane concatenation arithmetic -/

lemma concatLanes_nil (w : Nat) : concatLanes w [] = 0 := rfl

lemma concatLanes_cons (w x : Nat) (xs : List Nat) :
    concatLanes w (x :: xs) = x + concatLanes w xs * 2 ^ w := rfl

/-- Concatenating the `N` division/modulus lanes of a value below
`2 ^ (N * w)` reconstructs the value. -/
lemma concatLanes_range_div_mod (w : Nat) :
    ∀ (N v : Nat), v < 2 ^ (N * w) →
      concatLanes w ((List.range N).map fun i => v / 2 ^ (i * w) % 2 ^ w) = v := by
  intro N
  induction N with
  | zero =>
    intro v hv
    simp only [Nat.zero_mul, pow_zero, Nat.lt_one_iff] at hv
    simp [hv, concatLanes]
  | succ n ih =>
    intro v hv
    rw [List.range_succ_eq_map, List.map_cons, List.map_map, concatLanes_cons]
    have htail : ((List.range n).map ((fun i => v / 2 ^ (i * w) % 2 ^ w) ∘ Nat.succ)) =
        (List.range n).map fun i => (v / 2 ^ w) / 2 ^ (i * w) % 2 ^ w := by
      apply List.map_congr_left
      intro i _
      show v / 2 ^ (Nat.succ i * w) % 2 ^ w = v / 2 ^ w / 2 ^ (i * w) % 2 ^ w
      rw [Nat.div_div_eq_div_mul, ← pow_add, Nat.succ_mul, Nat.add_comm (i * w) w]
    have hbound : v / 2 ^ w < 2 ^ (n * w) := by
      rw [Nat.div_lt_iff_lt_mul (Nat.pos_pow_of_pos w (by norm_num)), ← pow_add]
      rw [Nat.succ_mul] at hv
      exact hv
    rw [htail, ih (v / 2 ^ w) hbound]
    simp only [Nat.zero_mul, pow_zero, Nat.div_one]
    exact Nat.mod_add_div' v (2 ^ w)

/-! ### Inversion of the constructor -/

lemma mkBus_inv (p : Params) (b : Bus) (hb : mkBus p = some b) :
    b = mkBusCore p ∧ p.xlen % 8 = 0 ∧ p.ilen % 8 = 0 ∧ 1 ≤ p.nret ∧
      ∀ s ∈ interfaceSignals p, 0 < s.2 := by
  by_cases h : p.xlen % 8 = 0 ∧ p.ilen % 8 = 0 ∧ 1 ≤ p.nret ∧
      ∀ s ∈ interfaceSignals p, 0 < s.2
  · rw [mkBus, if_pos h] at hb
    injection hb with hb
    exact ⟨hb.symm, h⟩
  · rw [mkBus, if_neg h] at hb
    exact absurd hb (by simp)

lemma mem_globalSignalNames_of (b : Bus) (n : String)
    (hmem : n ∈ b.signalNames) (hnot : n ∉ b.nretSignalNames) :
    n ∈ b.globalSignalNames := by
  rw [Bus.globalSignalNames, List.mem_filter]
  refine ⟨hmem, ?_⟩
  by_contra hfalse
  exact hnot (List.mem_filter.2 ⟨hmem, by simp_all⟩)

/-! ### Claim theorems -/

/-- C1: for every bus composed with valid parameters (`xlen` and `ilen`
multiples of 8, `nret ≥ 1`), for every retirement-scaled signal and
every bit pattern `v` on the parent signal, concatenating, in lane
order `0..nret-1`, the values carried by the identically-named signals
of the slices produced by `slice_nret` reconstructs `v` bit-for-bit. -/
theorem slice_concat_roundtrip (p : Params) (b : Bus) (hb : mkBus p = some b)
    (n : String) (hn : n ∈ b.nretSignalNames) (v : Nat)
    (hv : v < 2 ^ b.width n) :
    concatLanes (b.width n / b.params.nret)
      ((List.range b.params.nret).map (laneValue b n v)) = v := by
  obtain ⟨hbe, -, -, h1, -⟩ := mkBus_inv p b hb
  subst hbe
  obtain ⟨hdvd, -⟩ := width_facts p h1 n hn
  show concatLanes ((mkBusCore p).width n / p.nret)
    ((List.range p.nret).map (laneValue (mkBusCore p) n v)) = v
  have hmap : (List.range p.nret).map (laneValue (mkBusCore p) n v) =
      (List.range p.nret).map fun i =>
        v / 2 ^ (i * ((mkBusCore p).width n / p.nret)) %
          2 ^ ((mkBusCore p).width n / p.nret) := by
    apply List.map_congr_left
    intro i _
    exact laneValue_eq (mkBusCore p) n v i hn
  rw [hmap]
  apply concatLanes_range_div_mod
  rw [Nat.mul_div_cancel' hdvd]
  exact hv

theorem slice_concat_roundtrip_witness :
    concatLanes (demoBus.width "rvfi_valid" / demoBus.params.nret)
      ((List.range demoBus.params.nret).map (laneValue demoBus "rvfi_valid" 2)) = 2 :=
  slice_concat_roundtrip demoParams demoBus rfl "rvfi_valid" (by decide) 2
    (by decide)

/-- C2: for every valid BusParameters the composed interface is exactly
the signal catalog the specification states: each feature group's
signals present if and only if its flag is set, with the stated
per-lane widths scaled by `nret`, and nothing else. -/
theorem bus_compose_catalog (p : Params) (b : Bus) (hb : mkBus p = some b) :
    b.interface = specSignalCatalog p := by
  obtain ⟨hbe, -, -, -, -⟩ := mkBus_inv p b hb
  subst hbe
  show interfaceSignals p = specSignalCatalog p
  unfold interfaceSignals specSignalCatalog clkSignals rstSignals
    isnMetaSignals intRegSignals pcSignals memSignals csrSignals
  simp [Nat.mul_one]

theorem bus_compose_catalog_witness :
    demoBus.interface = specSignalCatalog demoParams :=
  bus_compose_catalog demoParams demoBus rfl

/-- C3 (amended): construction fails exactly when `xlen % 8 ≠ 0`,
`ilen % 8 ≠ 0`, `nret < 1`, or some signal of an enabled group would be
zero bits wide (migen rejects non-positive signal widths); in
particular it fails for `xlen = 33`, for `nret = 0`, and for `ilen = 0`
(whose instruction-word signal would be `Signal(nret * 0)`).  On
failure no bus is returned. -/
theorem mkBus_error_conditions :
    (∀ p : Params,
      mkBus p = none ↔ ¬(p.xlen % 8 = 0 ∧ p.ilen % 8 = 0 ∧ 1 ≤ p.nret ∧
        ∀ s ∈ interfaceSignals p, 0 < s.2)) ∧
    mkBus { defaultParams with xlen := 33 } = none ∧
    mkBus { defaultParams with nret := 0 } = none ∧
    mkBus { defaultParams with ilen := 0 } = none := by
  refine ⟨?_, by decide, by decide, by decide⟩
  intro p
  by_cases h : p.xlen % 8 = 0 ∧ p.ilen % 8 = 0 ∧ 1 ≤ p.nret ∧
      ∀ s ∈ interfaceSignals p, 0 < s.2
  · simp [mkBus, h]
  · simp [mkBus, h]

/-- C3 counterexample: `ilen = 0` satisfies all three conditions of the
claim's "if and only if" (`0 % 8 = 0`), yet construction fails rather
than succeeding, because the instruction-word signal would be
`Signal(nret * 0)` and migen rejects zero-width signals; so "for
parameters satisfying all three conditions, construction succeeds" is
false at `ilen = 0`. -/
theorem mkBus_ilen_zero_rejected :
    ({ defaultParams with ilen := 0 } : Params).xlen % 8 = 0 ∧
    ({ defaultParams with ilen := 0 } : Params).ilen % 8 = 0 ∧
    1 ≤ ({ defaultParams with ilen := 0 } : Params).nret ∧
    mkBus { defaultParams with ilen := 0 } = none := by decide

/-- C4: slicing a bus built with `nret = N` produces exactly `N` slices,
each constructed from the same parameters except `nret = 1`; every
global (`clk`/`rst`) signal is broadcast whole to every slice, and each
retirement-scaled signal of total width `W = N·w` feeds the
identically-named `w`-bit signal of slice `i` from bit range
`[i·w, (i+1)·w)`; the emitted assignments are appended to the parent's
combinational list.  The `N = 1` case is the same statement with a
single full-width lane. -/
theorem slice_nret_structure (p : Params) (b : Bus) (hb : mkBus p = some b) :
    ∃ b' slices, sliceNret b = some (b', slices) ∧
      slices.length = p.nret ∧
      (∀ s ∈ slices, mkBus { p with nret := 1 } = some s) ∧
      (∀ i, i < p.nret → ∀ n ∈ b.signalNames, n ∉ b.nretSignalNames →
        ({ lane := i, dst := n, src := SrcExpr.whole n } : CombAssign) ∈
          sliceNretAssigns b i ∧
        ({ lane := i, dst := n, src := SrcExpr.whole n } : CombAssign) ∈
          b'.comb) ∧
      (∀ i, i < p.nret → ∀ n ∈ b.nretSignalNames,
        b.width n = p.nret * (b.width n / p.nret) ∧
        ({ lane := i, dst := n,
           src := SrcExpr.slice n (i * (b.width n / p.nret))
             ((i + 1) * (b.width n / p.nret)) } : CombAssign) ∈
          sliceNretAssigns b i ∧
        (∀ s ∈ slices, s.width n = b.width n / p.nret)) ∧
      b'.comb = b.comb ++ (List.range p.nret).flatMap (sliceNretAssigns b) := by
  obtain ⟨hbe, h8x, h8i, h1, hpos⟩ := mkBus_inv p b hb
  subst hbe
  refine ⟨_, _, sliceNret_mkBus p h8x h8i h1 hpos, ?_, ?_, ?_, ?_, ?_⟩
  · exact List.length_replicate ..
  · intro s hs
    rw [List.eq_of_mem_replicate hs]
    exact mkBus_valid _ h8x h8i (le_refl 1) (interface_pos_nret_one p h1 hpos)
  · intro i hi n hmem hnot
    have hg : n ∈ (mkBusCore p).globalSignalNames :=
      mem_globalSignalNames_of _ n hmem hnot
    constructor
    · exact List.mem_append_left _ (List.mem_map_of_mem _ hg)
    · show _ ∈ (List.range p.nret).flatMap (sliceNretAssigns (mkBusCore p))
      rw [List.mem_flatMap]
      exact ⟨i, List.mem_range.2 hi,
        List.mem_append_left _ (List.mem_map_of_mem _ hg)⟩
  · intro i hi n hn
    obtain ⟨hdvd, -⟩ := width_facts p h1 n hn
    refine ⟨(Nat.mul_div_cancel' hdvd).symm, ?_, ?_⟩
    · exact List.mem_append_right _ (List.mem_map_of_mem _ hn)
    · intro s hs
      rw [List.eq_of_mem_replicate hs]
      exact (width_facts p h1 n hn).2
  · show (List.range p.nret).flatMap (sliceNretAssigns (mkBusCore p)) = _
    simp [mkBusCore]

theorem slice_nret_structure_witness :
    ∃ b' slices, sliceNret demoBus = some (b', slices) ∧
      slices.length = demoParams.nret ∧
      (∀ s ∈ slices, mkBus { demoParams with nret := 1 } = some s) ∧
      (∀ i, i < demoParams.nret → ∀ n ∈ demoBus.signalNames,
        n ∉ demoBus.nretSignalNames →
        ({ lane := i, dst := n, src := SrcExpr.whole n } : CombAssign) ∈
          sliceNretAssigns demoBus i ∧
        ({ lane := i, dst := n, src := SrcExpr.whole n } : CombAssign) ∈
          b'.comb) ∧
      (∀ i, i < demoParams.nret → ∀ n ∈ demoBus.nretSignalNames,
        demoBus.width n = demoParams.nret * (demoBus.width n / demoParams.nret) ∧
        ({ lane := i, dst := n,
           src := SrcExpr.slice n (i * (demoBus.width n / demoParams.nret))
             ((i + 1) * (demoBus.width n / demoParams.nret)) } : CombAssign) ∈
          sliceNretAssigns demoBus i ∧
        (∀ s ∈ slices, s.width n = demoBus.width n / demoParams.nret)) ∧
      b'.comb = demoBus.comb ++
        (List.range demoParams.nret).flatMap (sliceNretAssigns demoBus) :=
  slice_nret_structure demoParams demoBus rfl

/-! ### Lookup lemmas for the tracer adapter -/

lemma csr_find?_none (p : Params) (t : String) (ht : t.length < 15) :
    (csrSignals p).find? (fun s => s.1 == t) = none := by
  rw [List.find?_eq_none]
  intro s hs
  unfold csrSignals at hs
  rw [List.mem_flatMap] at hs
  obtain ⟨c, -, hs⟩ := hs
  have hlen : ∀ suf : String, suf.length = 6 →
      ("rvfi_csr_" ++ c ++ suf).length = 15 + c.length := by
    intro suf hsuf
    rw [String.length_append, String.length_append, hsuf]
    have h9 : ("rvfi_csr_" : String).length = 9 := rfl
    rw [h9]
    omega
  simp only [List.mem_cons, List.not_mem_nil, or_false] at hs
  rcases hs with rfl | rfl | rfl | rfl <;>
  · simp only [beq_iff_eq]
    intro hcontra
    have hl := congrArg String.length hcontra
    rw [hlen _ (by rfl)] at hl
    omega

lemma getSignal_rst (p : Params) (hwc : p.with_clk = true)
    (hwr : p.with_rst = true) :
    (mkBusCore p).getSignal "rst" = some ("rst", 1) := by
  simp [Bus.getSignal, mkBusCore, interfaceSignals, clkSignals, rstSignals,
    hwc, hwr, List.find?_append]

lemma getSignal_rs1_addr (p : Params) (hwc : p.with_clk = true)
    (hwr : p.with_rst = true) (hwm : p.with_isn_meta = true)
    (hwi : p.with_int_reg = true) :
    (mkBusCore p).getSignal "rvfi_rs1_addr" =
      some ("rvfi_rs1_addr", p.nret * 5) := by
  simp [Bus.getSignal, mkBusCore, interfaceSignals, clkSignals, rstSignals,
    isnMetaSignals, intRegSignals, hwc, hwr, hwm, hwi, List.find?_append]

lemma getSignal_rs1_rdata (p : Params) (hwc : p.with_clk = true)
    (hwr : p.with_rst = true) (hwm : p.with_isn_meta = true)
    (hwi : p.with_int_reg = true) :
    (mkBusCore p).getSignal "rvfi_rs1_rdata" =
      some ("rvfi_rs1_rdata", p.nret * p.xlen) := by
  simp [Bus.getSignal, mkBusCore, interfaceSignals, clkSignals, rstSignals,
    isnMetaSignals, intRegSignals, hwc, hwr, hwm, hwi, List.find?_append]

/-- C5 counterexample: a bus built with `nret = 1` but without the clock
group is accepted by the composer, yet tracer-adapter construction
against it fails (the adapter reads the missing `clk` attribute), so
"against a Bus with nret = 1 it succeeds" does not hold for every
bus. -/
theorem ibex_tracer_missing_signal :
    (mkBus { defaultParams with with_clk := false }).isSome = true ∧
    ((mkBus { defaultParams with with_clk := false }).bind
      fun b => mkIbexTracer b 0) = none := by decide

/-- C5 (amended): tracer-adapter construction against a bus whose
parameters have `nret ≠ 1` always fails; against a bus whose parameters
enable the six feature groups, it succeeds exactly when `nret = 1`. -/
theorem ibex_tracer_precondition (p : Params) (b : Bus) (h : Nat)
    (hb : mkBus p = some b) :
    (b.params.nret ≠ 1 → mkIbexTracer b h = none) ∧
    (p.with_clk = true → p.with_rst = true → p.with_isn_meta = true →
      p.with_int_reg = true → p.with_pc = true → p.with_mem = true →
      (mkIbexTracer b h).isSome = (b.params.nret == 1)) := by
  obtain ⟨hbe, -, -, -, -⟩ := mkBus_inv p b hb
  subst hbe
  constructor
  · intro hne
    unfold mkIbexTracer
    rw [if_neg]
    intro hcon
    exact hne hcon.1
  · intro hwc hwr hwm hwi hwp hwq
    by_cases hn1 : (mkBusCore p).params.nret = 1
    · have hall : ibexTracerRequired.all
          (fun n => ((mkBusCore p).getSignal n).isSome) = true := by
        rw [List.all_eq_true]
        intro n hn
        have hmem : n ∈ (mkBusCore p).signalNames := by
          simp only [ibexTracerRequired, List.mem_cons, List.not_mem_nil,
            or_false] at hn
          rcases hn with rfl | rfl | rfl | rfl | rfl | rfl | rfl | rfl | rfl |
            rfl | rfl | rfl | rfl | rfl | rfl | rfl | rfl | rfl | rfl | rfl |
            rfl | rfl | rfl <;>
            simp [Bus.signalNames, mkBusCore, interfaceSignals, clkSignals,
              rstSignals, isnMetaSignals, intRegSignals, pcSignals,
              memSignals, hwc, hwr, hwm, hwi, hwp, hwq]
        obtain ⟨s, hf, -, -⟩ := find?_name_of_mem hmem
        show ((mkBusCore p).interface.find? fun s => s.1 == n).isSome = true
        rw [hf]
        rfl
      unfold mkIbexTracer
      rw [if_pos ⟨hn1, hall⟩, hn1]
      rfl
    · unfold mkIbexTracer
      rw [if_neg fun hcon => hn1 hcon.1]
      have : ((mkBusCore p).params.nret == 1) = false := by
        rw [beq_eq_false_iff_ne]
        exact hn1
      rw [this]
      rfl

theorem ibex_tracer_precondition_witness :
    (demoBus1.params.nret ≠ 1 → mkIbexTracer demoBus1 0 = none) ∧
    (demoParams1.with_clk = true → demoParams1.with_rst = true →
      demoParams1.with_isn_meta = true → demoParams1.with_int_reg = true →
      demoParams1.with_pc = true → demoParams1.with_mem = true →
      (mkIbexTracer demoBus1 0).isSome = (demoBus1.params.nret == 1)) :=
  ibex_tracer_precondition demoParams1 demoBus1 0 rfl

/-- C6: for a tracer adapter bound to a bus with `nret = 1` and the six
feature groups enabled, the reset port is the bitwise complement of the
bus's 1-bit reset (so its value at every cycle is the logical negation
of the reset input), the hart identifier is a 32-bit constant, the
third source-register address and data ports are constant zeros of
widths 5 and `xlen`, and every other signal is passed through by name
unmodified. -/
theorem ibex_tracer_binding (p : Params) (b : Bus) (h : Nat)
    (t : IbexTracer) (hb : mkBus p = some b)
    (hwc : p.with_clk = true) (hwr : p.with_rst = true)
    (hwm : p.with_isn_meta = true) (hwi : p.with_int_reg = true)
    (ht : mkIbexTracer b h = some t) :
    t.i_rst_ni = PortExpr.notSig "rst" ∧
    (∀ sv : String → Nat, sv "rst" < 2 →
      evalPort sv b.width t.i_rst_ni = 1 - sv "rst") ∧
    t.i_hart_id_i = PortExpr.const 32 h ∧
    t.i_rvfi_rs3_addr = PortExpr.const 5 0 ∧
    t.i_rvfi_rs3_rdata = PortExpr.const p.xlen 0 ∧
    t.i_clk_i = PortExpr.sig "clk" ∧
    t.i_rvfi_valid = PortExpr.sig "rvfi_valid" ∧
    t.i_rvfi_order = PortExpr.sig "rvfi_order" ∧
    t.i_rvfi_insn = PortExpr.sig "rvfi_insn" ∧
    t.i_rvfi_trap = PortExpr.sig "rvfi_trap" ∧
    t.i_rvfi_halt = PortExpr.sig "rvfi_halt" ∧
    t.i_rvfi_intr = PortExpr.sig "rvfi_intr" ∧
    t.i_rvfi_mode = PortExpr.sig "rvfi_mode" ∧
    t.i_rvfi_ixl = PortExpr.sig "rvfi_ixl" ∧
    t.i_rvfi_rs1_addr = PortExpr.sig "rvfi_rs1_addr" ∧
    t.i_rvfi_rs2_addr = PortExpr.sig "rvfi_rs2_addr" ∧
    t.i_rvfi_rs1_rdata = PortExpr.sig "rvfi_rs1_rdata" ∧
    t.i_rvfi_rs2_rdata = PortExpr.sig "rvfi_rs2_rdata" ∧
    t.i_rvfi_rd_addr = PortExpr.sig "rvfi_rd_addr" ∧
    t.i_rvfi_rd_wdata = PortExpr.sig "rvfi_rd_wdata" ∧
    t.i_rvfi_pc_rdata = PortExpr.sig "rvfi_pc_rdata" ∧
    t.i_rvfi_pc_wdata = PortExpr.sig "rvfi_pc_wdata" ∧
    t.i_rvfi_mem_addr = PortExpr.sig "rvfi_mem_addr" ∧
    t.i_rvfi_mem_rmask = PortExpr.sig "rvfi_mem_rmask" ∧
    t.i_rvfi_mem_wmask = PortExpr.sig "rvfi_mem_wmask" ∧
    t.i_rvfi_mem_rdata = PortExpr.sig "rvfi_mem_rdata" ∧
    t.i_rvfi_mem_wdata = PortExpr.sig "rvfi_mem_wdata" := by
  obtain ⟨hbe, -, -, -, -⟩ := mkBus_inv p b hb
  subst hbe
  rw [mkIbexTracer] at ht
  split at ht
  case isFalse => exact absurd ht (by simp)
  case isTrue hcond =>
    injection ht with ht
    subst ht
    have hn1 : p.nret = 1 := hcond.1
    have hwidth_rst : (mkBusCore p).width "rst" = 1 := by
      rw [Bus.width, getSignal_rst p hwc hwr]
      rfl
    have hwidth_a : (mkBusCore p).width "rvfi_rs1_addr" = 5 := by
      rw [Bus.width, getSignal_rs1_addr p hwc hwr hwm hwi]
      show p.nret * 5 = 5
      rw [hn1, Nat.one_mul]
    have hwidth_d : (mkBusCore p).width "rvfi_rs1_rdata" = p.xlen := by
      rw [Bus.width, getSignal_rs1_rdata p hwc hwr hwm hwi]
      show p.nret * p.xlen = p.xlen
      rw [hn1, Nat.one_mul]
    refine ⟨rfl, ?_, rfl, ?_, ?_, rfl, rfl, rfl, rfl, rfl, rfl, rfl, rfl,
      rfl, rfl, rfl, rfl, rfl, rfl, rfl, rfl, rfl, rfl, rfl, rfl, rfl, rfl⟩
    · intro sv hsv
      show 2 ^ (mkBusCore p).width "rst" - 1 - sv "rst" = 1 - sv "rst"
      rw [hwidth_rst]
      norm_num
    · show PortExpr.const ((mkBusCore p).width "rvfi_rs1_addr") 0 = _
      rw [hwidth_a]
    · show PortExpr.const ((mkBusCore p).width "rvfi_rs1_rdata") 0 = _
      rw [hwidth_d]

theorem ibex_tracer_binding_witness :
    demoTracer.i_rst_ni = PortExpr.notSig "rst" ∧
    (∀ sv : String → Nat, sv "rst" < 2 →
      evalPort sv demoBus1.width demoTracer.i_rst_ni = 1 - sv "rst") ∧
    demoTracer.i_hart_id_i = PortExpr.const 32 0 ∧
    demoTracer.i_rvfi_rs3_addr = PortExpr.const 5 0 ∧
    demoTracer.i_rvfi_rs3_rdata = PortExpr.const demoParams1.xlen 0 ∧
    demoTracer.i_clk_i = PortExpr.sig "clk" ∧
    demoTracer.i_rvfi_valid = PortExpr.sig "rvfi_valid" ∧
    demoTracer.i_rvfi_order = PortExpr.sig "rvfi_order" ∧
    demoTracer.i_rvfi_insn = PortExpr.sig "rvfi_insn" ∧
    demoTracer.i_rvfi_trap = PortExpr.sig "rvfi_trap" ∧
    demoTracer.i_rvfi_halt = PortExpr.sig "rvfi_halt" ∧
    demoTracer.i_rvfi_intr = PortExpr.sig "rvfi_intr" ∧
    demoTracer.i_rvfi_mode = PortExpr.sig "rvfi_mode" ∧
    demoTracer.i_rvfi_ixl = PortExpr.sig "rvfi_ixl" ∧
    demoTracer.i_rvfi_rs1_addr = PortExpr.sig "rvfi_rs1_addr" ∧
    demoTracer.i_rvfi_rs2_addr = PortExpr.sig "rvfi_rs2_addr" ∧
    demoTracer.i_rvfi_rs1_rdata = PortExpr.sig "rvfi_rs1_rdata" ∧
    demoTracer.i_rvfi_rs2_rdata = PortExpr.sig "rvfi_rs2_rdata" ∧
    demoTracer.i_rvfi_rd_addr = PortExpr.sig "rvfi_rd_addr" ∧
    demoTracer.i_rvfi_rd_wdata = PortExpr.sig "rvfi_rd_wdata" ∧
    demoTracer.i_rvfi_pc_rdata = PortExpr.sig "rvfi_pc_rdata" ∧
    demoTracer.i_rvfi_pc_wdata = PortExpr.sig "rvfi_pc_wdata" ∧
    demoTracer.i_rvfi_mem_addr = PortExpr.sig "rvfi_mem_addr" ∧
    demoTracer.i_rvfi_mem_rmask = PortExpr.sig "rvfi_mem_rmask" ∧
    demoTracer.i_rvfi_mem_wmask = PortExpr.sig "rvfi_mem_wmask" ∧
    demoTracer.i_rvfi_mem_rdata = PortExpr.sig "rvfi_mem_rdata" ∧
    demoTracer.i_rvfi_mem_wdata = PortExpr.sig "rvfi_mem_wdata" :=
  ibex_tracer_binding demoParams1 demoBus1 0 demoTracer rfl rfl rfl rfl rfl
    (by decide)

lemma csrSignals_length (p : Params) :
    (csrSignals p).length = 4 * p.csr_names.length := by
  unfold csrSignals
  have key : ∀ l : List String, (l.flatMap fun c =>
      [("rvfi_csr_" ++ c ++ "_rmask", p.nret * p.xlen),
       ("rvfi_csr_" ++ c ++ "_wmask", p.nret * p.xlen),
       ("rvfi_csr_" ++ c ++ "_rdata", p.nret * p.xlen),
       ("rvfi_csr_" ++ c ++ "_wdata", p.nret * p.xlen)]).length =
      4 * l.length := by
    intro l
    induction l with
    | nil => rfl
    | cons c cs ih =>
      rw [List.flatMap_cons, List.length_append, ih]
      simp
      omega
  exact key p.csr_names

lemma csrSignals_width (p : Params) :
    ∀ s ∈ csrSignals p, s.2 = p.nret * p.xlen := by
  intro s hs
  unfold csrSignals at hs
  rw [List.mem_flatMap] at hs
  obtain ⟨c, -, hs⟩ := hs
  simp only [List.mem_cons, List.not_mem_nil, or_false] at hs
  rcases hs with rfl | rfl | rfl | rfl <;> rfl

/-- C7: each extension-register name contributes exactly four signals,
named by the fixed `rvfi_csr_<name>_{rmask,wmask,rdata,wdata}` pattern
and each `nret * xlen` bits wide; the interface is the flag-gated
catalog followed by exactly `4 * |csr_names|` such signals. -/
theorem csr_extension_signals (p : Params) (b : Bus) (hb : mkBus p = some b) :
    b.interface = interfaceSignals { p with csr_names := [] } ++ csrSignals p ∧
    (csrSignals p).length = 4 * p.csr_names.length ∧
    (∀ s ∈ csrSignals p, s.2 = p.nret * p.xlen) ∧
    ∀ c ∈ p.csr_names,
      ("rvfi_csr_" ++ c ++ "_rmask", p.nret * p.xlen) ∈ b.interface ∧
      ("rvfi_csr_" ++ c ++ "_wmask", p.nret * p.xlen) ∈ b.interface ∧
      ("rvfi_csr_" ++ c ++ "_rdata", p.nret * p.xlen) ∈ b.interface ∧
      ("rvfi_csr_" ++ c ++ "_wdata", p.nret * p.xlen) ∈ b.interface := by
  obtain ⟨hbe, -, -, -, -⟩ := mkBus_inv p b hb
  subst hbe
  refine ⟨?_, csrSignals_length p, csrSignals_width p, ?_⟩
  · show interfaceSignals p = _
    unfold interfaceSignals clkSignals rstSignals isnMetaSignals
      intRegSignals pcSignals memSignals csrSignals
    simp [List.append_assoc]
  · intro c hc
    have h4 : ∀ x ∈ ([("rvfi_csr_" ++ c ++ "_rmask", p.nret * p.xlen),
        ("rvfi_csr_" ++ c ++ "_wmask", p.nret * p.xlen),
        ("rvfi_csr_" ++ c ++ "_rdata", p.nret * p.xlen),
        ("rvfi_csr_" ++ c ++ "_wdata", p.nret * p.xlen)] :
          List (String × Nat)), x ∈ (mkBusCore p).interface := by
      intro x hx
      show x ∈ interfaceSignals p
      rw [interfaceSignals]
      apply List.mem_append_right
      unfold csrSignals
      rw [List.mem_flatMap]
      exact ⟨c, hc, hx⟩
    exact ⟨h4 _ (by simp), h4 _ (by simp), h4 _ (by simp), h4 _ (by simp)⟩

theorem csr_extension_signals_witness :
    demoBusCsr.interface =
      interfaceSignals { demoParamsCsr with csr_names := [] } ++
        csrSignals demoParamsCsr ∧
    (csrSignals demoParamsCsr).length = 4 * demoParamsCsr.csr_names.length ∧
    (∀ s ∈ csrSignals demoParamsCsr,
      s.2 = demoParamsCsr.nret * demoParamsCsr.xlen) ∧
    ∀ c ∈ demoParamsCsr.csr_names,
      ("rvfi_csr_" ++ c ++ "_rmask",
        demoParamsCsr.nret * demoParamsCsr.xlen) ∈ demoBusCsr.interface ∧
      ("rvfi_csr_" ++ c ++ "_wmask",
        demoParamsCsr.nret * demoParamsCsr.xlen) ∈ demoBusCsr.interface ∧
      ("rvfi_csr_" ++ c ++ "_rdata",
        demoParamsCsr.nret * demoParamsCsr.xlen) ∈ demoBusCsr.interface ∧
      ("rvfi_csr_" ++ c ++ "_wdata",
        demoParamsCsr.nret * demoParamsCsr.xlen) ∈ demoBusCsr.interface :=
  csr_extension_signals demoParamsCsr demoBusCsr rfl

/-- C8: the composer is a pure function of its parameters: identical
BusParameters give buses with identical interfaces, signal-name sets
and widths, with no dependence on call order or prior invocations. -/
theorem composer_deterministic (p q : Params) (hpq : p = q) (b₁ b₂ : Bus)
    (h₁ : mkBus p = some b₁) (h₂ : mkBus q = some b₂) :
    b₁.interface = b₂.interface ∧ b₁.signalNames = b₂.signalNames ∧
    ∀ n, b₁.width n = b₂.width n := by
  subst hpq
  rw [h₁] at h₂
  injection h₂ with h₂
  subst h₂
  exact ⟨rfl, rfl, fun _ => rfl⟩

theorem composer_deterministic_witness :
    demoBus1.interface = demoBus1.interface ∧
    demoBus1.signalNames = demoBus1.signalNames ∧
    ∀ n, demoBus1.width n = demoBus1.width n :=
  composer_deterministic demoParams1 demoParams1 rfl demoBus1 demoBus1 rfl rfl

/-- C9: slicing does not mutate the parent bus: the returned parent has
the same parameter record, interface, signal-name sets and widths; its
only change is the combinational assignments appended to its `comb`
list. -/
theorem slice_nret_frame (p : Params) (b : Bus) (hb : mkBus p = some b)
    (b' : Bus) (slices : List Bus)
    (hs : sliceNret b = some (b', slices)) :
    b'.params = b.params ∧ b'.interface = b.interface ∧
    b'.signalNames = b.signalNames ∧
    b'.nretSignalNames = b.nretSignalNames ∧
    (∀ n, b'.width n = b.width n) ∧
    b'.comb = b.comb ++ (List.range b.params.nret).flatMap (sliceNretAssigns b) := by
  obtain ⟨hbe, h8x, h8i, h1, hpos⟩ := mkBus_inv p b hb
  subst hbe
  rw [sliceNret_mkBus p h8x h8i h1 hpos] at hs
  injection hs with hs
  injection hs with hs1 hs2
  subst hs1
  refine ⟨rfl, rfl, rfl, rfl, fun _ => rfl, ?_⟩
  show (List.range p.nret).flatMap (sliceNretAssigns (mkBusCore p)) = _
  simp [mkBusCore]

theorem slice_nret_frame_witness :
    demoSlicedParent.params = demoBus.params ∧
    demoSlicedParent.interface = demoBus.interface ∧
    demoSlicedParent.signalNames = demoBus.signalNames ∧
    demoSlicedParent.nretSignalNames = demoBus.nretSignalNames ∧
    (∀ n, demoSlicedParent.width n = demoBus.width n) ∧
    demoSlicedParent.comb = demoBus.comb ++
      (List.range demoBus.params.nret).flatMap (sliceNretAssigns demoBus) :=
  slice_nret_frame demoParams demoBus rfl demoSlicedParent demoSlices
    (sliceNret_mkBus demoParams rfl rfl (by decide) (by decide))

/-- C10: the `with_spec_exec` flag is recorded in the parameter record but
gates no signal group: flipping it changes neither constructability nor
the interface nor the signal names of the composed bus. -/
theorem spec_exec_flag_inert (p : Params) (v₁ v₂ : Bool) :
    (mkBus { p with with_spec_exec := v₁ }).isSome
      = (mkBus { p with with_spec_exec := v₂ }).isSome ∧
    (mkBus { p with with_spec_exec := v₁ }).map Bus.interface
      = (mkBus { p with with_spec_exec := v₂ }).map Bus.interface ∧
    (mkBus { p with with_spec_exec := v₁ }).map Bus.signalNames
      = (mkBus { p with with_spec_exec := v₂ }).map Bus.signalNames ∧
    (mkBus { p with with_spec_exec := v₁ }).map
        (fun b => b.params.with_spec_exec)
      = (mkBus { p with with_spec_exec := v₁ }).map (fun _ => v₁) := by
  by_cases h : p.xlen % 8 = 0 ∧ p.ilen % 8 = 0 ∧ 1 ≤ p.nret ∧
      ∀ s ∈ interfaceSignals p, 0 < s.2
  · have h₁ : mkBus { p with with_spec_exec := v₁ } =
        some (mkBusCore { p with with_spec_exec := v₁ }) :=
      mkBus_valid _ h.1 h.2.1 h.2.2.1 h.2.2.2
    have h₂ : mkBus { p with with_spec_exec := v₂ } =
        some (mkBusCore { p with with_spec_exec := v₂ }) :=
      mkBus_valid _ h.1 h.2.1 h.2.2.1 h.2.2.2
    rw [h₁, h₂]
    exact ⟨rfl, rfl, rfl, rfl⟩
  · have h₁ : mkBus { p with with_spec_exec := v₁ } = none := by
      rw [mkBus]
      exact if_neg h
    have h₂ : mkBus { p with with_spec_exec := v₂ } = none := by
      rw [mkBus]
      exact if_neg h
    rw [h₁, h₂]
    exact ⟨rfl, rfl, rfl, rfl⟩
